import Mathlib

/-!
Shallow embedding of the Fountain screenplay classifier and dual-dialogue
block assembler of the obsidian-fountain-plugin repository.

Strings are modelled as `List Char`.  The two code paths are embedded
separately, exactly following their sources:
  * `classifyStep` / `classifyLines` / `parseFountain`, `collectDialogueBlock`,
    `assemble`, `renderLine`, `escapeHtml` — the static preview path
    (src/fountain-preview.ts: parseFountain, fountainToHTML,
    collectDialogueBlock, renderLine, escapeHtml);
  * `classifyStepCM` / `classifyCM` and `dualPass` — the CodeMirror live
    preview path (src/unnamed/part_001: buildDecorations).

JavaScript regular expressions are embedded as executable Boolean matchers;
each matcher's doc comment names the regex it denotes.  JS `\s` (and the set
used by `String.trim`) is `isWsJS`; JS `.` excludes the line terminators
`isLineTermJS`.
-/

/-- Whitespace per JS `\s` (identical to the set stripped by `String.trim`). -/
def isWsJS (c : Char) : Bool :=
  c == ' ' || c == '\t' || c == '\n' || c == '\r' || c == '\x0b' || c == '\x0c' ||
  c.toNat == 0xa0 || c.toNat == 0x1680 || (decide (0x2000 ≤ c.toNat) && decide (c.toNat ≤ 0x200a)) ||
  c.toNat == 0x2028 || c.toNat == 0x2029 || c.toNat == 0x202f || c.toNat == 0x205f ||
  c.toNat == 0x3000 || c.toNat == 0xfeff

/-- Line terminators per JS (the characters a JS regex `.` does not match). -/
def isLineTermJS (c : Char) : Bool :=
  c == '\n' || c == '\r' || c.toNat == 0x2028 || c.toNat == 0x2029

/-- Remove trailing JS whitespace. -/
def dropTrailWs (s : List Char) : List Char := (s.reverse.dropWhile isWsJS).reverse

/-- JS `String.prototype.trim`. -/
def trimJS (s : List Char) : List Char := dropTrailWs (s.dropWhile isWsJS)

/-- Lower-case an ASCII letter (JS `/i` flag, ASCII fragment). -/
def asciiLower (c : Char) : Char :=
  if 65 ≤ c.toNat && c.toNat ≤ 90 then Char.ofNat (c.toNat + 32) else c

def isUpperAZ (c : Char) : Bool := decide (65 ≤ c.toNat) && decide (c.toNat ≤ 90)

def isDigit09 (c : Char) : Bool := decide (48 ≤ c.toNat) && decide (c.toNat ≤ 57)

/-- An ASCII letter, i.e. a character matched by `[A-Z]` under the `/i` flag. -/
def isAlphaCI (c : Char) : Bool :=
  decide (97 ≤ (asciiLower c).toNat) && decide ((asciiLower c).toNat ≤ 122)

/-- The character class `[A-Z0-9\s]` (no `/i` flag on the character regex). -/
def isCharClassU (c : Char) : Bool := isUpperAZ c || isDigit09 c || isWsJS c

/-- Case-insensitive list equality (JS `/i`). -/
def eqCIl (s pat : List Char) : Bool := s.map asciiLower == pat.map asciiLower

/-- Case-insensitive prefix test. -/
def startsWithCI (s pat : List Char) : Bool := eqCIl (s.take pat.length) pat

/-- Matcher for `regexPatterns.sceneHeading`, i.e.
`/^(?:INT\.|EXT\.|EST\.|INT\/EXT\.|I\/E\.|I\/X\.).*|^\.[^.].*$/i`:
either the line starts (case-insensitively) with one of the six prefixes, or
it is a forced heading: a period, a non-period, then characters a JS `.` can
match up to the end of the string. -/
def sceneMatch (s : List Char) : Bool :=
  startsWithCI s "INT.".toList || startsWithCI s "EXT.".toList ||
  startsWithCI s "EST.".toList || startsWithCI s "INT/EXT.".toList ||
  startsWithCI s "I/E.".toList || startsWithCI s "I/X.".toList ||
  (match s with
   | '.' :: c :: rest => c != '.' && rest.all (fun x => !isLineTermJS x)
   | _ => false)

/-- Matcher for `regexPatterns.centered`, i.e. `/^>\s*.*\s*<$/`: a first `>`
and a final `<` (which forces at least two characters), and an interior
splittable as whitespace, then `.`-matchable characters, then whitespace.  The
split exists exactly when the interior with its whitespace margins removed
contains no line terminator. -/
def centeredMatch (s : List Char) : Bool :=
  (s.head? == some '>') && (s.getLast? == some '<') &&
  (dropTrailWs ((s.drop 1).dropLast.dropWhile isWsJS)).all (fun x => !isLineTermJS x)

/-- Matcher for the section-heading test `/^#{1,6}\s/`: between one and six
leading `#` characters followed by a whitespace character. -/
def sectionMatch (s : List Char) : Bool :=
  let k := (s.takeWhile (fun c => c == '#')).length
  decide (1 ≤ k) && decide (k ≤ 6) && (s[k]?).any isWsJS

/-- Level of a section heading: `Math.min((trimmed.match(/^(#+)/))[1].length, 3)`. -/
def sectionLevel (s : List Char) : Nat := min (s.takeWhile (fun c => c == '#')).length 3

/-- Matcher for `regexPatterns.transition`, i.e.
`/^(?:[A-Z\s]+TO:|FADE TO BLACK\.|FADE OUT\.|CUT TO BLACK\.|>.*[^<])$/i`.
Since `:` is matched only by the literal `TO:`, the first alternative holds
exactly when the line ends in `TO:` (case-insensitively: the `/i` flag applies)
preceded by a non-empty run of letters and whitespace.  The last alternative
holds when the line starts with `>`, has at least two characters, does not end
in `<`, and its middle characters are `.`-matchable. -/
def transMatch (s : List Char) : Bool :=
  (eqCIl (s.drop (s.length - 3)) "TO:".toList && !(s.take (s.length - 3)).isEmpty &&
    (s.take (s.length - 3)).all (fun c => isAlphaCI c || isWsJS c)) ||
  eqCIl s "FADE TO BLACK.".toList || eqCIl s "FADE OUT.".toList ||
  eqCIl s "CUT TO BLACK.".toList ||
  (match s with
   | '>' :: rest =>
     match rest.getLast? with
     | some c => c != '<' && rest.dropLast.all (fun x => !isLineTermJS x)
     | none => false
   | _ => false)

/-- Matcher for `regexPatterns.character`, i.e.
`/^[\s]*[A-Z0-9\s]+(?: \([^)]+\))?\s*(?:\^)?$/` (no `/i` flag).  Because
`[\s] ⊆ [A-Z0-9\s]`, the leading part is a non-empty run of `[A-Z0-9\s]`
characters; `^`, `(` and every other character end that run, so the maximal
run determines the (unique) way the regex can match:
  * nothing follows the run, or only a final `^`: match iff the run is
    non-empty;
  * a `(` follows: the run must end in the literal space with a non-empty
    remainder before it, the parenthetical body runs to the first `)` and must
    be non-empty, and after `)` only whitespace and an optional final `^`. -/
def charMatch (raw : List Char) : Bool :=
  let run := raw.takeWhile isCharClassU
  let rest := raw.dropWhile isCharClassU
  match rest with
  | [] => !run.isEmpty
  | ['^'] => !run.isEmpty
  | '(' :: rtail =>
    let inner := rtail.takeWhile (fun c => c != ')')
    let after := rtail.dropWhile (fun c => c != ')')
    (run.getLast? == some ' ') && !run.dropLast.isEmpty && !inner.isEmpty &&
    (match after with
     | ')' :: fin =>
       (match fin.dropWhile isWsJS with
        | [] => true
        | ['^'] => true
        | _ => false)
     | _ => false)
  | _ => false

/-- Matcher for `regexPatterns.parenthetical`, i.e. `/^\s*\([^)]+\)\s*$/`. -/
def parenMatch (s : List Char) : Bool :=
  match s.dropWhile isWsJS with
  | '(' :: rest =>
    !(rest.takeWhile (fun c => c != ')')).isEmpty &&
    (match rest.dropWhile (fun c => c != ')') with
     | ')' :: fin => fin.all isWsJS
     | _ => false)
  | _ => false

/-- Line types used by the two classifiers.  The static preview path uses the
string tags `empty`, `dialogue-blank`, `scene-heading`, `centered`,
`section-heading-<level>`, `transition`, `character`, `parenthetical`,
`dialogue`, `action`; the live path uses the same tags minus `dialogue-blank`
and the section headings. -/
inductive LType where
  | empty
  | dialogueBlank
  | sceneHeading
  | centered
  | sectionHeading (level : Nat)
  | transition
  | character
  | parenthetical
  | dialogue
  | action
deriving DecidableEq, Repr

/-- The four mutable booleans threaded through a classification pass:
`lastLineWasCharacter`, `lastLineWasParenthetical`, `lastLineWasDialogue`,
`lastLineWasEmpty`. -/
structure CState where
  lastC : Bool
  lastP : Bool
  lastD : Bool
  lastE : Bool
deriving DecidableEq, Repr

/-- The dialogue-context test `lastLineWasCharacter || lastLineWasParenthetical
|| lastLineWasDialogue`. -/
def inDialogue (st : CState) : Bool := st.lastC || st.lastP || st.lastD

/-- One parsed line of the static preview path: `{ type, text, rawText }` with
`text` the trimmed text (empty for blank lines). -/
structure PLine where
  type : LType
  text : List Char
  rawText : List Char
deriving DecidableEq, Repr

/-- JS `endsWith('^')` on a one-character suffix. -/
def endsCaret (s : List Char) : Bool := s.getLast? == some '^'

/-- One iteration of the `parseFountain` loop of src/fountain-preview.ts:
classify `raw` in state `st`, returning the new state and the pushed line. -/
def classifyStep (st : CState) (raw : List Char) : CState × PLine :=
  let trimmed := trimJS raw
  if trimmed.isEmpty then
    if !raw.isEmpty && inDialogue st then
      (st, ⟨.dialogueBlank, [], raw⟩)
    else
      (⟨false, false, false, true⟩, ⟨.empty, [], raw⟩)
  else if sceneMatch trimmed then
    (⟨false, false, false, false⟩, ⟨.sceneHeading, trimmed, raw⟩)
  else if centeredMatch trimmed then
    (⟨false, false, false, false⟩, ⟨.centered, trimmed, raw⟩)
  else if sectionMatch trimmed then
    (⟨false, false, false, false⟩, ⟨.sectionHeading (sectionLevel trimmed), trimmed, raw⟩)
  else if transMatch trimmed then
    (⟨false, false, false, false⟩, ⟨.transition, trimmed, raw⟩)
  else if st.lastE && charMatch raw && !sceneMatch trimmed && !transMatch trimmed then
    (⟨true, false, false, false⟩, ⟨.character, trimmed, raw⟩)
  else if inDialogue st && charMatch raw && endsCaret trimmed &&
      !sceneMatch trimmed && !transMatch trimmed then
    (⟨true, false, false, false⟩, ⟨.character, trimmed, raw⟩)
  else if inDialogue st && parenMatch trimmed then
    (⟨false, true, false, false⟩, ⟨.parenthetical, trimmed, raw⟩)
  else if inDialogue st then
    (⟨false, false, true, false⟩, ⟨.dialogue, trimmed, raw⟩)
  else
    (⟨false, false, false, false⟩, ⟨.action, trimmed, raw⟩)

def classifyLinesGo (st : CState) : List (List Char) → List PLine
  | [] => []
  | r :: rs => (classifyStep st r).2 :: classifyLinesGo (classifyStep st r).1 rs

/-- Initial classifier state (`lastLineWasEmpty = true`). -/
def initState : CState := ⟨false, false, false, true⟩

/-- Classify a list of raw lines, as the `parseFountain` loop does. -/
def classifyLines (raws : List (List Char)) : List PLine := classifyLinesGo initState raws

/-- The `parseFountain` function of src/fountain-preview.ts: split on `'\n'`
and classify each line in order. -/
def parseFountain (text : List Char) : List PLine := classifyLines (text.splitOn '\n')

/-- One decorated line of the live preview path (src/unnamed/part_001):
`{ type, text }` with `text` the trimmed text; positions are carried by the
line's index in the list. -/
structure Deco where
  type : LType
  text : List Char
deriving DecidableEq, Repr

/-- One iteration of the classification loop of `buildDecorations`
(src/unnamed/part_001): no dialogue-blank rule, no section headings, no
adjacent-dual rule. -/
def classifyStepCM (st : CState) (raw : List Char) : CState × Deco :=
  let trimmed := trimJS raw
  if trimmed.isEmpty then
    (⟨false, false, false, true⟩, ⟨.empty, trimmed⟩)
  else if sceneMatch trimmed then
    (⟨false, false, false, false⟩, ⟨.sceneHeading, trimmed⟩)
  else if centeredMatch trimmed then
    (⟨false, false, false, false⟩, ⟨.centered, trimmed⟩)
  else if transMatch trimmed then
    (⟨false, false, false, false⟩, ⟨.transition, trimmed⟩)
  else if st.lastE && charMatch raw && !sceneMatch trimmed && !transMatch trimmed then
    (⟨true, false, false, false⟩, ⟨.character, trimmed⟩)
  else if inDialogue st && parenMatch trimmed then
    (⟨false, true, false, false⟩, ⟨.parenthetical, trimmed⟩)
  else if inDialogue st then
    (⟨false, false, true, false⟩, ⟨.dialogue, trimmed⟩)
  else
    (⟨false, false, false, false⟩, ⟨.action, trimmed⟩)

def classifyCMGo (st : CState) : List (List Char) → List Deco
  | [] => []
  | r :: rs => (classifyStepCM st r).2 :: classifyCMGo (classifyStepCM st r).1 rs

/-- The classification pass of `buildDecorations` over a list of raw lines. -/
def classifyCM (raws : List (List Char)) : List Deco := classifyCMGo initState raws

/-- Structural worker for `collectRight`; the fuel argument bounds the number
of loop iterations (the source loop runs while `k < decos.length`, so
`ds.length - k` iterations suffice). -/
def collectRightAux (ds : List Deco) : Nat → Nat → List Nat
  | 0, _ => []
  | fuel + 1, k =>
    match ds[k]? with
    | none => []
    | some d =>
      if d.type = .dialogue ∨ d.type = .parenthetical then
        k :: collectRightAux ds fuel (k + 1)
      else if d.type = .empty ∧
          (ds[k + 1]?).any (fun e => e.type = .dialogue ∨ e.type = .parenthetical) then
        k :: collectRightAux ds fuel (k + 1)
      else
        []

/-- Right-group collection of the dual-dialogue pass: starting at index `k`,
collect consecutive `dialogue`/`parenthetical` lines, or an `empty` line whose
immediate successor is `dialogue`/`parenthetical`. -/
def collectRight (ds : List Deco) (k : Nat) : List Nat :=
  collectRightAux ds (ds.length - k) k

/-- The backward skip over the empty lines between the two cues.  `fl` encodes
the JS cursor `findLeft` as `findLeft + 1`, so `fl = 0` means the cursor has
moved past the start of the document.  Returns the skipped indices in
increasing order plus the final cursor. -/
def skipMiddle (ds : List Deco) : Nat → List Nat × Nat
  | 0 => ([], 0)
  | n + 1 =>
    if (ds[n]?).any (fun d => d.type = .empty) then
      ((skipMiddle ds n).1 ++ [n], (skipMiddle ds n).2)
    else
      ([], n + 1)

/-- Backward left-group collection (cursor encoded as in `skipMiddle`):
`dialogue`/`parenthetical` lines are prepended and the scan continues; a
`character` line is prepended and the scan stops; an `empty` line whose
predecessor is `dialogue`/`parenthetical`/`character` is prepended and the
scan continues; anything else aborts. -/
def collectLeft (ds : List Deco) : Nat → List Nat
  | 0 => []
  | n + 1 =>
    match ds[n]? with
    | none => []
    | some d =>
      if d.type = .dialogue ∨ d.type = .parenthetical then
        collectLeft ds n ++ [n]
      else if d.type = .character then
        [n]
      else if d.type = .empty ∧ decide (1 ≤ n) ∧
          (ds[n - 1]?).any (fun e =>
            e.type = .dialogue ∨ e.type = .parenthetical ∨ e.type = .character) then
        collectLeft ds n ++ [n]
      else
        []

/-- A dual-dialogue block, recorded by the line indices of its two groups and
its source span (the code stores the first left line's `from` offset and the
last right line's `to` offset; offsets are monotone in the line index). -/
structure DBlock where
  fromIdx : Nat
  toIdx : Nat
  leftIdx : List Nat
  rightIdx : List Nat
deriving DecidableEq, Repr

/-- Set the `isDualProcessed` flag on every index of `idxs`. -/
def markAll (proc : List Bool) (idxs : List Nat) : List Bool :=
  idxs.foldl (fun p i => p.set i true) proc

/-- The retroactive dual-dialogue loop of `buildDecorations`: scan for an
unprocessed `character` line whose text ends in `^`, gather the right group
forward and the left group backward across the empty gap, and on success mark
all three segments processed and record a block.  The fuel argument bounds the
number of loop iterations (the source loop runs `j` from `0` to
`decos.length - 1`). -/
def dualLoop (ds : List Deco) : Nat → Nat → List Bool → List DBlock → List Bool × List DBlock
  | 0, _, proc, blocks => (proc, blocks)
  | fuel + 1, j, proc, blocks =>
    match ds[j]? with
    | none => (proc, blocks)
    | some d =>
      if d.type = .character ∧ endsCaret d.text ∧ (proc[j]?).any (fun b => b = false) then
        let right := j :: collectRight ds (j + 1)
        let mid := skipMiddle ds j
        let left := collectLeft ds mid.2
        match left with
        | [] => dualLoop ds fuel (j + 1) proc blocks
        | i0 :: _ =>
          if (ds[i0]?).any (fun e => e.type = .character) then
            dualLoop ds fuel (j + 1) (markAll proc (left ++ mid.1 ++ right))
              (blocks ++ [⟨i0, right.getLastD 0, left, right⟩])
          else
            dualLoop ds fuel (j + 1) proc blocks
      else
        dualLoop ds fuel (j + 1) proc blocks

/-- The whole dual-dialogue pass: processed flags (all initially false) and the
list of blocks to replace, in discovery order. -/
def dualPass (ds : List Deco) : List Bool × List DBlock :=
  dualLoop ds ds.length 0 (List.replicate ds.length false) []

/-- Types collected into a dialogue block after its character cue:
`dialogue`, `parenthetical`, `dialogue-blank`. -/
def isDlgBlockType (t : LType) : Bool :=
  t == .dialogue || t == .parenthetical || t == .dialogueBlank

/-- The `collectDialogueBlock` function of src/fountain-preview.ts, with the
start index expressed by passing the list suffix: an empty result unless the
first line is a `character`, else that line followed by the run of
`dialogue`/`parenthetical`/`dialogue-blank` lines after it. -/
def collectDialogueBlock : List PLine → List PLine
  | [] => []
  | x :: xs =>
    if x.type = .character then x :: xs.takeWhile (fun l => isDlgBlockType l.type) else []

/-- A node of the static preview's render output: an ordinary line, or a dual
dialogue block made of the left group, the skipped empty gap, and the right
group. -/
inductive RNode where
  | single (l : PLine)
  | dual (left gap right : List PLine)
deriving DecidableEq, Repr

/-- The loop of `fountainToHTML` (src/fountain-preview.ts), abstracted to emit
render nodes: at a `character` line, collect the left block, skip `empty`
lines, and if a `character` whose text ends in `^` follows, emit a dual block
and resume after the right block (`i = cursor + rightBlock.length`); otherwise
emit the line as a single node and advance by one.  The fuel argument bounds
the number of iterations; every iteration consumes at least one line, so the
list length suffices. -/
def assembleAux : Nat → List PLine → List RNode
  | 0, _ => []
  | _ + 1, [] => []
  | fuel + 1, l :: rest =>
    if l.type = .character then
      let left := collectDialogueBlock (l :: rest)
      let afterLeft := (l :: rest).drop left.length
      let gap := afterLeft.takeWhile (fun x => x.type == .empty)
      let afterGap := afterLeft.drop gap.length
      if (afterGap.head?).any (fun r => r.type == .character && endsCaret r.text) then
        let right := collectDialogueBlock afterGap
        .dual left gap right :: assembleAux fuel (afterGap.drop right.length)
      else
        .single l :: assembleAux fuel rest
    else
      .single l :: assembleAux fuel rest

/-- The block assembler of the static preview path. -/
def assemble (ls : List PLine) : List RNode := assembleAux ls.length ls

/-- All classified lines covered by a render node, gap included. -/
def nodeLines : RNode → List PLine
  | .single l => [l]
  | .dual left gap right => left ++ gap ++ right

def flattenNodes (ns : List RNode) : List PLine := (ns.map nodeLines).flatten

/-- The lines a render node actually renders: a dual block renders its left
and right groups but not the skipped empty gap. -/
def renderedLines : RNode → List PLine
  | .single l => [l]
  | .dual left _ right => left ++ right

def emittedLines (ns : List RNode) : List PLine := (ns.map renderedLines).flatten

/-- JS `text.replace(/^>\s*/, '')`. -/
def stripLeadGtWs (s : List Char) : List Char :=
  match s with
  | '>' :: rest => rest.dropWhile isWsJS
  | _ => s

/-- JS `text.replace(/\s*<$/, '')`. -/
def stripTrailWsLt (s : List Char) : List Char :=
  if s.getLast? == some '<' then dropTrailWs s.dropLast else s

/-- JS `text.replace(/^#+\s*/, '')`. -/
def stripLeadHashWs (s : List Char) : List Char :=
  if s.head? == some '#' then (s.dropWhile (fun c => c == '#')).dropWhile isWsJS else s

/-- JS `text.replace(/\s*\^\s*$/, '')` (strip a trailing caret with its
whitespace margins). -/
def stripCaretEnd (s : List Char) : List Char :=
  if (dropTrailWs s).getLast? == some '^' then dropTrailWs (dropTrailWs s).dropLast else s

/-- JS `String.prototype.replace` with a global single-character pattern. -/
def replaceAllChar (c : Char) (rep : List Char) : List Char → List Char
  | [] => []
  | x :: xs => if x == c then rep ++ replaceAllChar c rep xs else x :: replaceAllChar c rep xs

/-- The `escapeHtml` function: the four global replaces applied in source
order (`&`, then `<`, then `>`, then `"`). -/
def escapeHtml (s : List Char) : List Char :=
  replaceAllChar '"' "&quot;".toList
    (replaceAllChar '>' "&gt;".toList
      (replaceAllChar '<' "&lt;".toList
        (replaceAllChar '&' "&amp;".toList s)))

/-- The string tag of a line type, as interpolated into `fountain-${type}`. -/
def typeStr : LType → List Char
  | .empty => "empty".toList
  | .dialogueBlank => "dialogue-blank".toList
  | .sceneHeading => "scene-heading".toList
  | .centered => "centered".toList
  | .sectionHeading k => "section-heading-".toList ++ (toString k).toList
  | .transition => "transition".toList
  | .character => "character".toList
  | .parenthetical => "parenthetical".toList
  | .dialogue => "dialogue".toList
  | .action => "action".toList

/-- JS `line.type.startsWith('section-heading')`. -/
def isSectionType : LType → Bool
  | .sectionHeading _ => true
  | _ => false

/-- The `renderLine` function of src/fountain-preview.ts. -/
def renderLine (l : PLine) : List Char :=
  if l.type = .empty ∨ l.type = .dialogueBlank then
    "<div class=\"fountain-empty\">&nbsp;</div>".toList
  else
    let display :=
      if l.type = .centered then escapeHtml (stripTrailWsLt (stripLeadGtWs l.text))
      else if l.type = .transition then escapeHtml (stripLeadGtWs l.text)
      else if isSectionType l.type then escapeHtml (stripLeadHashWs l.text)
      else escapeHtml l.text
    "<div class=\"fountain-line fountain-".toList ++ typeStr l.type ++ "\">".toList ++
      display ++ "</div>".toList

/-- The HTML parts pushed for one render node by `fountainToHTML`: a plain
line is one `renderLine` part; a dual block is the flex container with the two
columns, the right column's `character` line having the trailing `^` stripped
from its displayed text. -/
def renderNodeParts : RNode → List (List Char)
  | .single l => [renderLine l]
  | .dual left _ right =>
    ["<div class=\"fountain-dual-dialogue\">".toList,
     "<div class=\"fountain-dual-col\">".toList] ++
    left.map renderLine ++
    ["</div>".toList, "<div class=\"fountain-dual-col\">".toList] ++
    right.map (fun dl =>
      if dl.type = .character then renderLine ⟨dl.type, stripCaretEnd dl.text, dl.rawText⟩
      else renderLine dl) ++
    ["</div>".toList, "</div>".toList]

/-- JS `htmlParts.join('\n')`. -/
def joinNl (parts : List (List Char)) : List Char := (parts.intersperse "\n".toList).flatten

/-- The `fountainToHTML` function of src/fountain-preview.ts. -/
def fountainToHTML (ls : List PLine) : List Char :=
  joinNl (((assemble ls).map renderNodeParts).flatten)

/-- Structural facts about every dual node the assembler emits: the left group
starts with a `character` line, the right group starts with a `character` line
whose text ends in `^`, and the gap consists of `empty` lines only. -/
def nodeOK : RNode → Prop
  | .single _ => True
  | .dual left gap right =>
    (∃ l lt, left = l :: lt ∧ l.type = .character) ∧
    (∃ r rt, right = r :: rt ∧ r.type = .character ∧ endsCaret r.text = true) ∧
    (∀ g ∈ gap, g.type = .empty)

theorem drop_len_takeWhile {α : Type} (p : α → Bool) :
    ∀ l : List α, l.drop (l.takeWhile p).length = l.dropWhile p := by
  intro l
  induction l with
  | nil => rfl
  | cons a l ih =>
    rw [List.takeWhile_cons, List.dropWhile_cons]
    by_cases hp : p a
    · simp [hp, ih]
    · simp [hp]

theorem takeWhile_all {α : Type} (p : α → Bool) (l : List α) :
    ∀ x ∈ l.takeWhile p, p x = true := fun _ hx => List.mem_takeWhile_imp hx

theorem collectDialogueBlock_cons_char (l : PLine) (rest : List PLine) (hc : l.type = .character) :
    collectDialogueBlock (l :: rest) = l :: rest.takeWhile (fun x => isDlgBlockType x.type) := by
  simp [collectDialogueBlock, hc]

theorem length_dropWhile_le {α : Type} (p : α → Bool) (l : List α) :
    (l.dropWhile p).length ≤ l.length := by
  rw [← drop_len_takeWhile]
  simp [List.length_drop]

theorem flatten_assembleAux :
    ∀ (fuel : Nat) (ls : List PLine), ls.length ≤ fuel →
      flattenNodes (assembleAux fuel ls) = ls := by
  intro fuel
  induction fuel with
  | zero =>
    intro ls h
    have : ls = [] := List.length_eq_zero.mp (Nat.le_zero.mp h)
    subst this
    rfl
  | succ fuel ih =>
    intro ls h
    match ls with
    | [] => rfl
    | l :: rest =>
      by_cases hc : l.type = .character
      · rw [assembleAux]
        simp only [hc, if_true, collectDialogueBlock_cons_char l rest hc, List.length_cons,
          List.drop_succ_cons, drop_len_takeWhile]
        split
        next hd =>
          cases hAG : ((rest.dropWhile fun x => isDlgBlockType x.type).dropWhile
              fun x => x.type == LType.empty) with
          | nil => rw [hAG] at hd; simp [Option.any] at hd
          | cons r rt =>
            rw [hAG] at hd
            simp only [List.head?_cons, Option.any, Bool.and_eq_true, beq_iff_eq] at hd
            rw [collectDialogueBlock_cons_char r rt hd.1]
            simp only [List.length_cons, List.drop_succ_cons, drop_len_takeWhile]
            have hlen2 : (rt.dropWhile fun x => isDlgBlockType x.type).length ≤ fuel := by
              have h1 := length_dropWhile_le (fun x => isDlgBlockType x.type) rt
              have h2 : rt.length + 1 = ((rest.dropWhile fun x => isDlgBlockType x.type).dropWhile
                  fun x => x.type == LType.empty).length := by rw [hAG]; rfl
              have h3 := length_dropWhile_le (fun x => x.type == LType.empty)
                (rest.dropWhile fun x => isDlgBlockType x.type)
              have h4 := length_dropWhile_le (fun x => isDlgBlockType x.type) rest
              have h5 : rest.length + 1 ≤ fuel + 1 := by simpa using h
              omega
            have ihh := ih _ hlen2
            simp only [flattenNodes, List.map_cons, List.flatten_cons, nodeLines] at ihh ⊢
            rw [ihh]
            simp only [List.cons_append, List.append_assoc]
            rw [List.takeWhile_append_dropWhile (fun x => isDlgBlockType x.type) rt, ← hAG,
              List.takeWhile_append_dropWhile (fun x => x.type == LType.empty)
                (rest.dropWhile fun x => isDlgBlockType x.type),
              List.takeWhile_append_dropWhile (fun x => isDlgBlockType x.type) rest]
        next =>
          simp only [flattenNodes, List.map_cons, List.flatten_cons, nodeLines]
          have hlen : rest.length ≤ fuel := by simpa using h
          have ihh := ih rest hlen
          simp only [flattenNodes] at ihh
          simp [ihh]
      · rw [assembleAux]
        simp only [hc, if_false]
        simp only [flattenNodes, List.map_cons, List.flatten_cons, nodeLines]
        have hlen : rest.length ≤ fuel := by simpa using h
        have ihh := ih rest hlen
        simp only [flattenNodes] at ihh
        simp [ihh]

theorem assembleAux_nodeOK :
    ∀ (fuel : Nat) (ls : List PLine) (n : RNode), n ∈ assembleAux fuel ls → nodeOK n := by
  intro fuel
  induction fuel with
  | zero => intro ls n hn; simp [assembleAux] at hn
  | succ fuel ih =>
    intro ls n hn
    match ls with
    | [] => simp [assembleAux] at hn
    | l :: rest =>
      by_cases hc : l.type = .character
      · rw [assembleAux] at hn
        simp only [hc, if_true, collectDialogueBlock_cons_char l rest hc, List.length_cons,
          List.drop_succ_cons, drop_len_takeWhile] at hn
        split at hn
        next hd =>
          cases hAG : ((rest.dropWhile fun x => isDlgBlockType x.type).dropWhile
              fun x => x.type == LType.empty) with
          | nil =>
            rw [hAG] at hd
            simp [Option.any] at hd
          | cons r rt =>
            rw [hAG] at hd hn
            simp only [List.head?_cons, Option.any, Bool.and_eq_true, beq_iff_eq] at hd
            rcases List.mem_cons.mp hn with hhead | htail
            · subst hhead
              refine ⟨⟨l, _, rfl, hc⟩, ?_, ?_⟩
              · rw [collectDialogueBlock_cons_char r rt hd.1]
                exact ⟨r, _, rfl, hd.1, hd.2⟩
              · intro g hg
                have := List.mem_takeWhile_imp hg
                simpa [beq_iff_eq] using this
            · exact ih _ n htail
        next =>
          rcases List.mem_cons.mp hn with hhead | htail
          · subst hhead; trivial
          · exact ih _ n htail
      · rw [assembleAux] at hn
        simp only [hc, if_false] at hn
        rcases List.mem_cons.mp hn with hhead | htail
        · subst hhead; trivial
        · exact ih _ n htail

theorem filter_rendered_eq_filter_flatten (ns : List RNode) (h : ∀ n ∈ ns, nodeOK n) :
    (emittedLines ns).filter (fun l => !(l.type == .empty))
      = (flattenNodes ns).filter (fun l => !(l.type == .empty)) := by
  induction ns with
  | nil => rfl
  | cons n ns ih =>
    have hOK : nodeOK n := h n (List.mem_cons_self n ns)
    simp only [emittedLines, flattenNodes, List.map_cons, List.flatten_cons,
      List.filter_append] at ih ⊢
    rw [ih (fun m hm => h m (List.mem_cons_of_mem n hm))]
    congr 1
    cases n with
    | single l => rfl
    | dual left gap right =>
      simp only [renderedLines, nodeLines, List.filter_append]
      have hgap : gap.filter (fun l => !(l.type == LType.empty)) = [] := by
        rw [List.filter_eq_nil_iff]
        intro g hg
        have := hOK.2.2 g hg
        simp [this]
      rw [hgap]
      simp

theorem mem_collectRightAux (ds : List Deco) :
    ∀ (fuel k i : Nat), i ∈ collectRightAux ds fuel k →
      ∃ d, ds[i]? = some d ∧
        (d.type = .dialogue ∨ d.type = .parenthetical ∨ d.type = .empty) := by
  intro fuel
  induction fuel with
  | zero => intro k i hi; simp [collectRightAux] at hi
  | succ fuel ih =>
    intro k i hi
    rw [collectRightAux] at hi
    split at hi
    next => simp at hi
    next d hk =>
      split at hi
      next h1 =>
        rcases List.mem_cons.mp hi with rfl | htail
        · exact ⟨d, hk, by rcases h1 with h | h; exacts [Or.inl h, Or.inr (Or.inl h)]⟩
        · exact ih _ _ htail
      next =>
        split at hi
        next h2 =>
          rcases List.mem_cons.mp hi with rfl | htail
          · exact ⟨d, hk, Or.inr (Or.inr h2.1)⟩
          · exact ih _ _ htail
        next => simp at hi

theorem mem_skipMiddle (ds : List Deco) :
    ∀ (fl i : Nat), i ∈ (skipMiddle ds fl).1 →
      ∃ d, ds[i]? = some d ∧ d.type = .empty := by
  intro fl
  induction fl with
  | zero => intro i hi; simp [skipMiddle] at hi
  | succ n ih =>
    intro i hi
    rw [skipMiddle] at hi
    split at hi
    next h =>
      rcases List.mem_append.mp hi with h1 | h2
      · exact ih i h1
      · have hin : i = n := by simpa using h2
        subst hin
        cases hk : ds[i]? with
        | none => rw [hk] at h; simp [Option.any] at h
        | some d =>
          rw [hk] at h
          exact ⟨d, rfl, by simpa [Option.any] using h⟩
    next => simp at hi

theorem mem_collectLeft (ds : List Deco) :
    ∀ (fl i : Nat), i ∈ collectLeft ds fl →
      ∃ d, ds[i]? = some d ∧
        (d.type = .dialogue ∨ d.type = .parenthetical ∨ d.type = .character ∨ d.type = .empty) := by
  intro fl
  induction fl with
  | zero => intro i hi; simp [collectLeft] at hi
  | succ n ih =>
    intro i hi
    rw [collectLeft] at hi
    split at hi
    next => simp at hi
    next d hk =>
      split at hi
      next h1 =>
        rcases List.mem_append.mp hi with h2 | h2
        · exact ih i h2
        · have hin : i = n := by simpa using h2
          subst hin
          exact ⟨d, hk, by rcases h1 with h | h; exacts [Or.inl h, Or.inr (Or.inl h)]⟩
      next =>
        split at hi
        next h1 =>
          have hin : i = n := by simpa using hi
          subst hin
          exact ⟨d, hk, Or.inr (Or.inr (Or.inl h1))⟩
        next =>
          split at hi
          next h1 =>
            rcases List.mem_append.mp hi with h2 | h2
            · exact ih i h2
            · have hin : i = n := by simpa using h2
              subst hin
              exact ⟨d, hk, Or.inr (Or.inr (Or.inr h1.1))⟩
          next => simp at hi

theorem markAll_getElem (idxs : List Nat) :
    ∀ (proc : List Bool) (i : Nat), (markAll proc idxs)[i]? = some true →
      proc[i]? = some true ∨ i ∈ idxs := by
  induction idxs with
  | nil => intro proc i h; exact Or.inl h
  | cons a as ih =>
    intro proc i h
    rcases ih (proc.set a true) i h with h' | h'
    · by_cases hia : i = a
      · exact Or.inr (by simp [hia])
      · left
        rw [List.getElem?_set, if_neg (fun hx => hia hx.symm)] at h'
        exact h'
    · exact Or.inr (List.mem_cons_of_mem a h')

theorem dualLoop_proc_ok (ds : List Deco) :
    ∀ (fuel j : Nat) (proc : List Bool) (blocks : List DBlock),
      (∀ i : Nat, proc[i]? = some true →
        ∃ d : Deco, ds[i]? = some d ∧
          (d.type = .character ∨ d.type = .dialogue ∨ d.type = .parenthetical ∨ d.type = .empty)) →
      ∀ i : Nat, ((dualLoop ds fuel j proc blocks).1)[i]? = some true →
        ∃ d : Deco, ds[i]? = some d ∧
          (d.type = .character ∨ d.type = .dialogue ∨ d.type = .parenthetical ∨ d.type = .empty) := by
  intro fuel
  induction fuel with
  | zero => intro j proc blocks hinv i h; exact hinv i h
  | succ fuel ih =>
    intro j proc blocks hinv i h
    simp only [dualLoop] at h
    split at h
    next => exact hinv i h
    next d hj =>
      split at h
      next hcond =>
        split at h
        next => exact ih _ _ _ hinv i h
        next i0 rest0 hleft =>
          split at h
          next =>
            refine ih _ _ _ ?_ i h
            intro m hm
            rcases markAll_getElem _ _ m hm with hold | hmem
            · exact hinv m hold
            · rcases List.mem_append.mp hmem with hm1 | hm2
              · rcases List.mem_append.mp hm1 with hml | hmm
                · rcases mem_collectLeft ds _ m hml with ⟨e, he, ht⟩
                  exact ⟨e, he, by tauto⟩
                · rcases mem_skipMiddle ds _ m hmm with ⟨e, he, ht⟩
                  exact ⟨e, he, by tauto⟩
              · rcases List.mem_cons.mp hm2 with rfl | hmr
                · exact ⟨d, hj, Or.inl hcond.1⟩
                · rcases mem_collectRightAux ds _ _ m hmr with ⟨e, he, ht⟩
                  exact ⟨e, he, by tauto⟩
          next => exact ih _ _ _ hinv i h
      next => exact ih _ _ _ hinv i h

/-- C8 (amended): every line the live-preview dual-dialogue pass marks as
consumed is a `character`, `dialogue`, `parenthetical`, or `empty` line, so no
emitted block ever consumes a `scene-heading`, `transition`, `centered`, or
`action` line; encountering one during the right scan merely terminates the
right group (see the counterexample: the pairing itself still succeeds), and a
left scan that fails to reach a Character line consumes nothing. -/
theorem dualPass_consumed_ok (ds : List Deco) (i : Nat)
    (h : ((dualPass ds).1)[i]? = some true) :
    ∃ d : Deco, ds[i]? = some d ∧
      (d.type = .character ∨ d.type = .dialogue ∨ d.type = .parenthetical ∨ d.type = .empty) := by
  refine dualLoop_proc_ok ds ds.length 0 _ [] ?_ i h
  intro m hm
  rw [List.getElem?_replicate] at hm
  split at hm <;> simp at hm

theorem head_dropWhile_false {α : Type} (p : α → Bool) :
    ∀ (l : List α) (c : α) (t : List α), l.dropWhile p = c :: t → p c = false := by
  intro l
  induction l with
  | nil => intro c t h; simp [List.dropWhile] at h
  | cons a l ih =>
    intro c t h
    rw [List.dropWhile_cons] at h
    by_cases hp : p a
    · simp [hp] at h
      exact ih c t h
    · simp [hp] at h
      rcases h with ⟨h1, _⟩
      subst h1
      simpa using hp

theorem dropTrailWs_head (l : List Char) (c : Char) (h : (dropTrailWs l).head? = some c) :
    l.head? = some c := by
  have hsuff : l.reverse.dropWhile isWsJS <:+ l.reverse := List.dropWhile_suffix isWsJS
  obtain ⟨t, ht⟩ := hsuff
  have hl : l = (l.reverse.dropWhile isWsJS).reverse ++ t.reverse := by
    have := congrArg List.reverse ht
    simpa [List.reverse_append] using this.symm
  rw [dropTrailWs] at h
  cases hh : (l.reverse.dropWhile isWsJS).reverse with
  | nil => rw [hh] at h; simp at h
  | cons a t2 =>
    rw [hh] at h hl
    simp only [List.head?_cons, Option.some.injEq] at h
    subst h
    rw [hl]
    simp

theorem mem_of_mem_dropWhile {α : Type} (p : α → Bool) (l : List α) (c : α)
    (h : c ∈ l.dropWhile p) : c ∈ l := (List.dropWhile_suffix p).subset h

/-- The first character matched by the character regex, after any leading
whitespace, is an upper-case letter, a digit, a `(`, or the trailing `^`. -/
theorem charMatch_head (raw : List Char) (hcm : charMatch raw = true) (c : Char)
    (hh : (raw.dropWhile isWsJS).head? = some c) :
    isUpperAZ c = true ∨ isDigit09 c = true ∨ c = '(' ∨ c = '^' := by
  have hraw : raw = raw.takeWhile isCharClassU ++ raw.dropWhile isCharClassU :=
    (List.takeWhile_append_dropWhile isCharClassU raw).symm
  have hws : raw.dropWhile isWsJS =
      if ((raw.takeWhile isCharClassU).dropWhile isWsJS).isEmpty then
        (raw.dropWhile isCharClassU).dropWhile isWsJS
      else (raw.takeWhile isCharClassU).dropWhile isWsJS ++ raw.dropWhile isCharClassU := by
    conv_lhs => rw [hraw]
    exact List.dropWhile_append
  rw [hws] at hh
  split at hh
  · -- the whole class run is whitespace; the head comes from the rest of the
    -- string, whose first character is not in the class hence not whitespace
    cases hrest : raw.dropWhile isCharClassU with
    | nil => rw [hrest] at hh; simp at hh
    | cons x xs =>
      have hxnc : isCharClassU x = false := head_dropWhile_false isCharClassU raw x xs hrest
      have hxnw : isWsJS x = false := by
        cases hxw : isWsJS x with
        | false => rfl
        | true =>
          simp only [isCharClassU, hxw, Bool.or_true] at hxnc
          exact hxnc
      rw [hrest, List.dropWhile_cons, hxnw] at hh
      simp only [Bool.false_eq_true, if_false, List.head?_cons, Option.some.injEq] at hh
      subst hh
      rw [charMatch] at hcm
      rw [hrest] at hcm
      by_cases hxp : x = '('
      · exact Or.inr (Or.inr (Or.inl hxp))
      · by_cases hxq : x = '^'
        · exact Or.inr (Or.inr (Or.inr hxq))
        · exfalso
          split at hcm
          · rename_i heq; simp at heq
          · rename_i heq
            rw [List.cons.injEq] at heq
            exact hxq heq.1
          · rename_i rtail heq
            rw [List.cons.injEq] at heq
            exact hxp heq.1
          · simp at hcm
  · -- the head comes from the class run itself and is not whitespace
    next hne =>
      cases hrun : (raw.takeWhile isCharClassU).dropWhile isWsJS with
      | nil => exact absurd (by rw [hrun]; rfl) hne
      | cons x xs =>
        rw [hrun, List.cons_append, List.head?_cons] at hh
        have hx : x = c := by simpa using hh
        subst hx
        have hxw : isWsJS x = false := head_dropWhile_false isWsJS _ x xs hrun
        have hxmem : x ∈ raw.takeWhile isCharClassU :=
          mem_of_mem_dropWhile isWsJS _ x (by rw [hrun]; exact List.mem_cons_self x xs)
        have hxc : isCharClassU x = true := List.mem_takeWhile_imp hxmem
        rw [isCharClassU, hxw] at hxc
        simp only [Bool.or_false] at hxc
        rcases Bool.or_eq_true_iff.mp hxc with h | h
        · exact Or.inl h
        · exact Or.inr (Or.inl h)

theorem sectionMatch_head (s : List Char) (h : sectionMatch s = true) : s.head? = some '#' := by
  simp only [sectionMatch, Bool.and_eq_true, decide_eq_true_eq] at h
  have h1 := h.1.1
  cases s with
  | nil => simp at h1
  | cons a t =>
    rw [List.takeWhile_cons] at h1
    by_cases ha : (a == '#') = true
    · simp only [List.head?_cons, Option.some.injEq]
      exact eq_of_beq ha
    · rw [Bool.not_eq_true] at ha
      rw [ha] at h1
      simp at h1

theorem trim_of_all_ws (s : List Char) (h : s.all isWsJS = true) : trimJS s = [] := by
  have h1 : s.dropWhile isWsJS = [] :=
    List.dropWhile_eq_nil_iff.mpr (fun x hx => List.all_eq_true.mp h x hx)
  rw [trimJS, h1]
  rfl

theorem classifyLinesGo_length (st : CState) (raws : List (List Char)) :
    (classifyLinesGo st raws).length = raws.length := by
  induction raws generalizing st with
  | nil => rfl
  | cons r rs ih => simp [classifyLinesGo, ih]

/-- C1: for the six input lines `["", "JOHN", "Hi!", "", "JANE^", "Hey!"]` the
live-preview dual pass emits exactly one block, with left group the lines at
indices 1 and 2 (`Character "JOHN"`, `Dialogue "Hi!"`) and right group the
lines at indices 4 and 5 (`Character "JANE^"`, `Dialogue "Hey!"`); the
processed (consumed) flags are set exactly on lines 1-5, so every non-empty
line is consumed (the fifth consumed line is the empty gap at index 3).  The
static-preview assembler produces the same single dual block. -/
theorem c1_dual_example :
    (classifyCM [[], "JOHN".toList, "Hi!".toList, [], "JANE^".toList, "Hey!".toList]).map
        (fun d => (d.type, d.text))
      = [(.empty, []), (.character, "JOHN".toList), (.dialogue, "Hi!".toList), (.empty, []),
         (.character, "JANE^".toList), (.dialogue, "Hey!".toList)] ∧
    (dualPass (classifyCM [[], "JOHN".toList, "Hi!".toList, [], "JANE^".toList,
        "Hey!".toList])).2 = [⟨1, 5, [1, 2], [4, 5]⟩] ∧
    (dualPass (classifyCM [[], "JOHN".toList, "Hi!".toList, [], "JANE^".toList,
        "Hey!".toList])).1 = [false, true, true, true, true, true] ∧
    assemble (classifyLines [[], "JOHN".toList, "Hi!".toList, [], "JANE^".toList, "Hey!".toList])
      = [.single ⟨.empty, [], []⟩,
         .dual [⟨.character, "JOHN".toList, "JOHN".toList⟩, ⟨.dialogue, "Hi!".toList, "Hi!".toList⟩]
           [⟨.empty, [], []⟩]
           [⟨.character, "JANE^".toList, "JANE^".toList⟩,
            ⟨.dialogue, "Hey!".toList, "Hey!".toList⟩]] :=
  ⟨by decide, by decide, by decide, by decide⟩

/-- C2 counterexample: for the nine input lines `["", "JOHN", "Hi.", "",
"JANE^", "Hello.", "", "MARY^", "Hey."]` the live-preview dual pass emits two
blocks whose line ranges overlap: the `JANE^` cue (index 4) and its dialogue
(index 5) are the right group of the first block and the left group of the
second, so line 4 is covered by two render nodes — the render tree does not
partition the classified lines. -/
theorem c2_overlap_counterexample :
    (dualPass (classifyCM [[], "JOHN".toList, "Hi.".toList, [], "JANE^".toList, "Hello.".toList,
        [], "MARY^".toList, "Hey.".toList])).2
      = [⟨1, 5, [1, 2], [4, 5]⟩, ⟨4, 8, [4, 5], [7, 8]⟩] ∧
    (((dualPass (classifyCM [[], "JOHN".toList, "Hi.".toList, [], "JANE^".toList,
        "Hello.".toList, [], "MARY^".toList, "Hey.".toList])).2.map
          (fun b => b.leftIdx ++ b.rightIdx)).flatten).count 4 = 2 :=
  ⟨by decide, by decide⟩

/-- C2 (amended): the static-preview assembler partitions its input: the
render nodes of `assemble`, with each dual block covering its left group, its
empty gap, and its right group, concatenate back to the classified line
sequence — every line is covered exactly once, in original order. -/
theorem c2_static_partition (ls : List PLine) : flattenNodes (assemble ls) = ls :=
  flatten_assembleAux ls.length ls (Nat.le_refl ls.length)

/-- C3 counterexample: on the lines `["", "JOHN^", "Hi!", "", "JANE^",
"Hey!"]` the static-preview assembler emits a dual block whose left group's
first line is a Character whose trimmed text ends in `^` — its `isDualMarker`
is true, contradicting the claim that the left cue never carries the dual
marker. -/
theorem c3_left_marker_counterexample :
    assemble (classifyLines [[], "JOHN^".toList, "Hi!".toList, [], "JANE^".toList, "Hey!".toList])
      = [.single ⟨.empty, [], []⟩,
         .dual [⟨.character, "JOHN^".toList, "JOHN^".toList⟩,
             ⟨.dialogue, "Hi!".toList, "Hi!".toList⟩]
           [⟨.empty, [], []⟩]
           [⟨.character, "JANE^".toList, "JANE^".toList⟩,
            ⟨.dialogue, "Hey!".toList, "Hey!".toList⟩]] ∧
    endsCaret "JOHN^".toList = true :=
  ⟨by decide, by decide⟩

/-- C3 (amended): every dual block emitted by the static-preview assembler has
a left group starting with a Character line (which may itself carry the dual
marker) and a right group starting with a Character line whose trimmed text
ends in `^` (`isDualMarker = true`). -/
theorem c3_dual_heads (ls left gap right : List PLine)
    (h : RNode.dual left gap right ∈ assemble ls) :
    (∃ l lt, left = l :: lt ∧ l.type = LType.character) ∧
    (∃ r rt, right = r :: rt ∧ r.type = LType.character ∧ endsCaret r.text = true) := by
  have hok := assembleAux_nodeOK ls.length ls _ h
  exact ⟨hok.1, hok.2.1⟩

theorem c3_dual_heads_witness :
    (∃ l lt, [(⟨LType.character, "JOHN".toList, "JOHN".toList⟩ : PLine),
        ⟨LType.dialogue, "Hi!".toList, "Hi!".toList⟩] = l :: lt ∧ l.type = LType.character) ∧
    (∃ r rt, [(⟨LType.character, "JANE^".toList, "JANE^".toList⟩ : PLine),
        ⟨LType.dialogue, "Hey!".toList, "Hey!".toList⟩] = r :: rt ∧ r.type = LType.character ∧
        endsCaret r.text = true) :=
  c3_dual_heads
    (classifyLines [[], "JOHN".toList, "Hi!".toList, [], "JANE^".toList, "Hey!".toList])
    [⟨LType.character, "JOHN".toList, "JOHN".toList⟩,
     ⟨LType.dialogue, "Hi!".toList, "Hi!".toList⟩]
    [⟨LType.empty, [], []⟩]
    [⟨LType.character, "JANE^".toList, "JANE^".toList⟩,
     ⟨LType.dialogue, "Hey!".toList, "Hey!".toList⟩]
    (by decide)

/-- C4: the preview classifier is total: it produces exactly one classified
line per source line obtained by splitting the input on `'\n'`, and a
non-blank line matched by no rule and outside dialogue context falls back to
`action`. -/
theorem c4_classify_total :
    (∀ t : List Char, (parseFountain t).length = (t.splitOn '\n').length) ∧
    (∀ (st : CState) (raw : List Char),
      (trimJS raw).isEmpty = false →
      sceneMatch (trimJS raw) = false →
      centeredMatch (trimJS raw) = false →
      sectionMatch (trimJS raw) = false →
      transMatch (trimJS raw) = false →
      (st.lastE && charMatch raw) = false →
      inDialogue st = false →
      (classifyStep st raw).2.type = LType.action) := by
  constructor
  · intro t
    exact classifyLinesGo_length initState (t.splitOn '\n')
  · intro st raw hne hsc hcen hsec htr h7 hd
    simp [classifyStep, hne, hsc, hcen, hsec, htr, h7, hd]

theorem c4_classify_total_witness :
    (parseFountain "INT. HOUSE\n\nJOHN\nHi.".toList).length = 4 ∧
    (classifyStep initState "%%".toList).2.type = LType.action :=
  ⟨(c4_classify_total.1 "INT. HOUSE\n\nJOHN\nHi.".toList).trans (by decide),
   c4_classify_total.2 initState "%%".toList (by decide) (by decide) (by decide) (by decide)
     (by decide) (by decide) (by decide)⟩

/-- C5: a whitespace-only line of non-zero length inside dialogue context
(`lastLineWasCharacter`/`Parenthetical`/`Dialogue` set) is classified
`dialogue-blank` with the state left entirely unchanged, while the same line
outside dialogue context is classified `empty`; and `collectDialogueBlock`
keeps a `dialogue-blank` line inside the dialogue group rather than stopping
at it. -/
theorem c5_dialogue_continuation :
    (∀ (st : CState) (raw : List Char), raw ≠ [] → raw.all isWsJS = true →
      (inDialogue st = true → classifyStep st raw = (st, ⟨.dialogueBlank, [], raw⟩)) ∧
      (inDialogue st = false →
        classifyStep st raw = (⟨false, false, false, true⟩, ⟨.empty, [], raw⟩))) ∧
    (∀ c d1 b d2 : PLine, c.type = .character → d1.type = .dialogue →
      b.type = .dialogueBlank → d2.type = .dialogue →
      collectDialogueBlock [c, d1, b, d2] = [c, d1, b, d2]) := by
  constructor
  · intro st raw hraw hws
    have htr : trimJS raw = [] := trim_of_all_ws raw hws
    have hne : raw.isEmpty = false := by
      cases raw with
      | nil => exact absurd rfl hraw
      | cons a t => rfl
    constructor
    · intro hd
      simp [classifyStep, htr, hne, hd]
    · intro hd
      simp [classifyStep, htr, hne, hd]
  · intro c d1 b d2 hc h1 hb h2
    simp [collectDialogueBlock, hc, isDlgBlockType, h1, hb, h2]

theorem c5_dialogue_continuation_witness :
    (classifyStep ⟨false, false, true, false⟩ "  ".toList
       = (⟨false, false, true, false⟩, ⟨.dialogueBlank, [], "  ".toList⟩)) ∧
    (classifyStep initState "  ".toList
       = (⟨false, false, false, true⟩, ⟨.empty, [], "  ".toList⟩)) ∧
    collectDialogueBlock
        [⟨.character, "JOHN".toList, "JOHN".toList⟩,
         ⟨.dialogue, "Hello.".toList, "Hello.".toList⟩,
         ⟨.dialogueBlank, [], "  ".toList⟩, ⟨.dialogue, "More.".toList, "More.".toList⟩]
      = [⟨.character, "JOHN".toList, "JOHN".toList⟩,
         ⟨.dialogue, "Hello.".toList, "Hello.".toList⟩,
         ⟨.dialogueBlank, [], "  ".toList⟩, ⟨.dialogue, "More.".toList, "More.".toList⟩] :=
  ⟨(c5_dialogue_continuation.1 ⟨false, false, true, false⟩ "  ".toList (by decide) (by decide)).1
     rfl,
   (c5_dialogue_continuation.1 initState "  ".toList (by decide) (by decide)).2 rfl,
   c5_dialogue_continuation.2 _ _ _ _ rfl rfl rfl rfl⟩

/-- C6: in the preview classifier, a line inside dialogue context that matches
the character regex, whose trimmed text ends in `^`, and that is neither a
scene heading nor a transition, is classified `character` (with the dual
marker present in its text) even though no blank line precedes it — whether
or not `lastLineWasEmpty` is set, the resulting state and line are those of a
character cue. -/
theorem c6_adjacent_dual (st : CState) (raw : List Char)
    (hdia : inDialogue st = true) (hch : charMatch raw = true)
    (hcar : endsCaret (trimJS raw) = true)
    (hsc : sceneMatch (trimJS raw) = false) (htr : transMatch (trimJS raw) = false) :
    classifyStep st raw = (⟨true, false, false, false⟩, ⟨.character, trimJS raw, raw⟩) := by
  have hne : (trimJS raw).isEmpty = false := by
    cases htl : trimJS raw with
    | nil => rw [htl] at hcar; simp [endsCaret] at hcar
    | cons a l => rfl
  have hlast : (trimJS raw).getLast? = some '^' := by
    simpa [endsCaret] using hcar
  have hcen : centeredMatch (trimJS raw) = false := by
    rw [centeredMatch, hlast]
    simp
  have hsec : sectionMatch (trimJS raw) = false := by
    cases hsm : sectionMatch (trimJS raw) with
    | false => rfl
    | true =>
      exfalso
      have hhd := sectionMatch_head _ hsm
      have hhd2 : (raw.dropWhile isWsJS).head? = some '#' := dropTrailWs_head _ _ hhd
      rcases charMatch_head raw hch '#' hhd2 with h | h | h | h <;> exact absurd h (by decide)
  cases hE : st.lastE with
  | true => simp [classifyStep, hne, hsc, hcen, hsec, htr, hdia, hch, hcar, hE]
  | false => simp [classifyStep, hne, hsc, hcen, hsec, htr, hdia, hch, hcar, hE]

theorem c6_adjacent_dual_witness :
    classifyStep ⟨false, false, true, false⟩ "JANE^".toList
      = (⟨true, false, false, false⟩, ⟨.character, trimJS "JANE^".toList, "JANE^".toList⟩) :=
  c6_adjacent_dual ⟨false, false, true, false⟩ "JANE^".toList (by decide) (by decide) (by decide)
    (by decide) (by decide)

/-- C7 counterexample: the transition regex carries the `/i` flag, so the
lower-case line `"cut to:"` — which the claim says is not a Transition — is
classified `transition` by the preview classifier. -/
theorem c7_lowercase_counterexample :
    (parseFountain "cut to:".toList).map PLine.type = [LType.transition] ∧
    transMatch "cut to:".toList = true :=
  ⟨by decide, by decide⟩

/-- C7 (amended): a non-blank trimmed line is classified `transition` exactly
when the scene-heading, centered, and section-heading rules do not match and
the transition regex — matched case-insensitively because of its `/i` flag —
does: letters-and-whitespace ending in `TO:` in any case, one of the three
exact sentences in any case, or a `>` line not ending in `<`. -/
theorem c7_transition_iff (st : CState) (raw : List Char)
    (hne : (trimJS raw).isEmpty = false) :
    (classifyStep st raw).2.type = LType.transition ↔
      (sceneMatch (trimJS raw) = false ∧ centeredMatch (trimJS raw) = false ∧
       sectionMatch (trimJS raw) = false ∧ transMatch (trimJS raw) = true) := by
  cases hsc : sceneMatch (trimJS raw) with
  | true => simp [classifyStep, hne, hsc]
  | false =>
    cases hcen : centeredMatch (trimJS raw) with
    | true => simp [classifyStep, hne, hsc, hcen]
    | false =>
      cases hsec : sectionMatch (trimJS raw) with
      | true => simp [classifyStep, hne, hsc, hcen, hsec]
      | false =>
        cases htr : transMatch (trimJS raw) with
        | true => simp [classifyStep, hne, hsc, hcen, hsec, htr]
        | false =>
          cases hL : st.lastE <;> cases hM : charMatch raw <;>
            cases hB : inDialogue st <;> cases hC : parenMatch (trimJS raw) <;>
            cases hD : endsCaret (trimJS raw) <;>
            simp [classifyStep, hne, hsc, hcen, hsec, htr, hL, hM, hB, hC, hD]

theorem c7_transition_iff_witness :
    (classifyStep initState "cut to:".toList).2.type = LType.transition :=
  (c7_transition_iff initState "cut to:".toList (by decide)).mpr
    ⟨by decide, by decide, by decide, by decide⟩

/-- C8 counterexample: on the lines `["", "JOHN", "Hi.", "", "JANE^",
"INT. HOUSE - DAY"]` the right scan from the `JANE^` marker immediately
encounters the scene-heading line at index 5, yet the pairing does not abort:
a block is still formed from `JOHN`'s cue through the marker, and lines 1-4
are marked consumed — contradicting the claim that encountering such a line
aborts the pairing with no line consumed. -/
theorem c8_right_scan_counterexample :
    (classifyCM [[], "JOHN".toList, "Hi.".toList, [], "JANE^".toList,
        "INT. HOUSE - DAY".toList]).map Deco.type
      = [.empty, .character, .dialogue, .empty, .character, .sceneHeading] ∧
    dualPass (classifyCM [[], "JOHN".toList, "Hi.".toList, [], "JANE^".toList,
        "INT. HOUSE - DAY".toList])
      = ([false, true, true, true, true, false], [⟨1, 4, [1, 2], [4]⟩]) :=
  ⟨by decide, by decide⟩

theorem dualPass_consumed_ok_witness :
    ∃ d : Deco, (classifyCM [[], "JOHN".toList, "Hi.".toList, [], "JANE^".toList,
        "INT. HOUSE - DAY".toList])[1]? = some d ∧
      (d.type = .character ∨ d.type = .dialogue ∨ d.type = .parenthetical ∨ d.type = .empty) :=
  dualPass_consumed_ok
    (classifyCM [[], "JOHN".toList, "Hi.".toList, [], "JANE^".toList,
      "INT. HOUSE - DAY".toList]) 1 (by decide)

/-- C9: a rendered single line is the `fountain-line fountain-<type>` div
holding its HTML-escaped text (stated for `action` lines, whose text is not
marker-stripped), and the display markers are stripped before escaping:
`"> THE END <"` renders as `THE END`, a transition's leading `>` is removed,
and a section heading's leading `#` run is removed; HTML metacharacters are
escaped. -/
theorem c9_render_strips :
    (∀ l : PLine, l.type = LType.action →
      renderLine l = "<div class=\"fountain-line fountain-".toList ++ typeStr l.type ++
        "\">".toList ++ escapeHtml l.text ++ "</div>".toList) ∧
    renderLine ⟨.centered, "> THE END <".toList, "> THE END <".toList⟩ =
      "<div class=\"fountain-line fountain-centered\">THE END</div>".toList ∧
    renderLine ⟨.transition, "> BURN TO PINK".toList, "> BURN TO PINK".toList⟩ =
      "<div class=\"fountain-line fountain-transition\">BURN TO PINK</div>".toList ∧
    renderLine ⟨.sectionHeading 2, "## PART TWO".toList, "## PART TWO".toList⟩ =
      "<div class=\"fountain-line fountain-section-heading-2\">PART TWO</div>".toList ∧
    renderLine ⟨.dialogue, "R&D <em> \"hi\"".toList, "R&D <em> \"hi\"".toList⟩ =
      "<div class=\"fountain-line fountain-dialogue\">R&amp;D &lt;em&gt; &quot;hi&quot;</div>".toList := by
  refine ⟨?_, by decide, by decide, by decide, by decide⟩
  intro l hl
  simp [renderLine, hl, isSectionType]

theorem c9_render_strips_witness :
    renderLine ⟨LType.action, "He waits.".toList, "He waits.".toList⟩ =
      "<div class=\"fountain-line fountain-".toList ++ typeStr LType.action ++
        "\">".toList ++ escapeHtml "He waits.".toList ++ "</div>".toList :=
  c9_render_strips.1 ⟨LType.action, "He waits.".toList, "He waits.".toList⟩ rfl

/-- C10: every classified line whose type is not `empty` (`dialogue-blank`
included) is rendered by the static-preview assembler exactly once, in
original source order; only `empty` lines can be omitted (the gap lines
skipped inside a dual pairing). -/
theorem c10_nonempty_rendered_once (ls : List PLine) :
    (emittedLines (assemble ls)).filter (fun l => !(l.type == LType.empty))
      = ls.filter (fun l => !(l.type == LType.empty)) := by
  rw [filter_rendered_eq_filter_flatten (assemble ls)
      (fun n hn => assembleAux_nodeOK ls.length ls n hn)]
  rw [show flattenNodes (assemble ls) = ls from
    flatten_assembleAux ls.length ls (Nat.le_refl ls.length)]
